import Mathlib

/-!
Verification of the evaluation core of the `rune` Lisp runtime
(`src/interpreter.rs`, `src/core/cons.rs`, `src/core/object/vector.rs`)
via a shallow embedding in Lean 4.

Conventions of the embedding:

* `Obj` is the tagged value type (`Object` in the source).  The float,
  vector, record and native-function variants are omitted: no claim under
  verification concerns them, they are self-evaluating in the interpreter,
  and the interpreter never constructs them.  Symbols are represented by
  their interned name (symbol identity = name identity).
* Rust `Vec`s used as stacks (the lexical variable stack, the catch-tag
  stack, `dynamic_bindings`) are Lean `List`s in the SAME order as the
  Rust vector: push = append at the end (`++ [x]`), `last` = `getLast?`,
  `pop` = `dropLast`, "search most-recent-first" = search from the end.
* Fallible Rust functions returning `Result` become functions returning
  `Except`/a sum; `&mut self` state threading becomes explicit
  state-passing, so a mutation attempt returns the (possibly unchanged)
  new state together with the `Result`.
* The evaluator can diverge (`while`), so every evaluation function is
  driven by explicit fuel; `none` means the fuel ran out, and every
  theorem about a concrete program picks a sufficient fuel.
* `ElemStreamIter` (the streaming iterator over the elements of a list
  object) lives in `cons/iter.rs`, which is not part of the sources under
  verification; its protocol is reconstructed from its call sites: it
  yields the successive cars of a chain of cons cells, ends at `nil`, and
  any other (dotted) tail is an iteration error.  Every program appearing
  in a theorem below uses only proper lists, so nothing depends on the
  dotted-tail choice.
-/

/-- The tagged object model (`Object` in `core/object`).  Atomic variants
are `nil`, `t`, integers, strings and symbols (a symbol is its interned
name); `cons` is the pair cell.  Equality is structural, matching the
derived/structural `PartialEq` implementations of the source. -/
inductive Obj where
  | nil
  | t
  | int (n : Int)
  | str (s : String)
  | sym (name : String)
  | cons (car cdr : Obj)
deriving DecidableEq, Repr

namespace Obj

/-- Right-nested proper list out of a Lean list (reader helper for the
programs appearing in theorems, and the `slice_into_list(_, None)` used
by `bind_args` for the `&rest` argument). -/
def ofList : List Obj → Obj
  | [] => .nil
  | x :: xs => .cons x (ofList xs)

/-- Rendered form of an object, after the `Display` implementations: the
cons case follows `impl Display for Cons` in `cons.rs` (collapse
right-nested conses ending in `nil` into list syntax, anything else into
a trailing `. tail`); the atom cases render the obvious way (their
`Display` lives outside the sources under verification; no theorem
depends on this text). -/
def display : Obj → String
  | .nil => "nil"
  | .t => "t"
  | .int n => toString n
  | .str s => "\"" ++ s ++ "\""
  | .sym name => name
  | .cons a d => "(" ++ display a ++ displayTail d
where
  /-- The loop inside `impl Display for Cons`. -/
  displayTail : Obj → String
  | .nil => ")"
  | .cons a d => " " ++ display a ++ displayTail d
  | x => " . " ++ display x ++ ")"

end Obj

/-- The messages of ordinary errors.  The interpreter treats messages
opaquely (it only ever asks whether an error HAS a message), so they are
modelled as structured data: `argError`/`typeError` mirror
`ArgError::new`/`TypeError::new`, the remaining constructors carry the
data of the corresponding `error!`/`anyhow!` call sites in
`interpreter.rs`. -/
inductive ErrMsg where
  | argError (expected actual : Nat) (name : String)
  | typeError (expected : String) (found : Obj)
  | voidVariable (name : String)
  | noCatch (tag : Obj)
  | invalidFunction (f : Obj)
  | msg (s : String)
deriving DecidableEq, Repr

/-- Rendered message text.  The `Display` of `ArgError`/`TypeError` is in
`core/error.rs`, outside the sources under verification; the text used
here is therefore nominal, and no theorem depends on it. -/
def ErrMsg.render : ErrMsg → String
  | .argError expected actual name =>
      "Expected " ++ toString expected ++ " argument(s) for " ++ name ++
        ", but found " ++ toString actual
  | .typeError expected found =>
      "expected " ++ expected ++ ", found " ++ found.display
  | .voidVariable name => "Void variable: " ++ name
  | .noCatch tag => "No catch for " ++ tag.display
  | .invalidFunction f => "Invalid Function: " ++ f.display
  | .msg s => s

/-- `EvalError` of `interpreter.rs`: a backtrace plus an optional message.
`error = none` is the distinguished message-less throw signal produced
only by `throw`; everything else is an ordinary error. -/
structure EvalError where
  backtrace : List String
  error : Option ErrMsg
deriving DecidableEq, Repr

/-- An ordinary error with an empty backtrace (`EvalError::new_error` via
the `error!` macro). -/
def EvalError.ofMsg (m : ErrMsg) : EvalError := ⟨[], some m⟩

/-- The message-less signal `throw` fails with (`EvalError { error: None,
backtrace: Vec::new() }`). -/
def EvalError.throwSignal : EvalError := ⟨[], none⟩

/-- `impl Display for EvalError`: the message (if any) on one line, then
each backtrace frame on its own line. -/
def EvalError.render (e : EvalError) : String :=
  (match e.error with
   | some m => m.render ++ "\n"
   | none => "") ++ (e.backtrace.map (fun x => x ++ "\n")).foldl (· ++ ·) ""

/-- The `Environment` (shared, dynamically scoped state): the dynamic
variable table, the active catch-tag stack (push/pop at the END of the
list, as in the Rust `Vec`), and the one-slot `thrown` transfer cell.
The table itself (`env.rs`) is outside the sources under verification;
modelled from the spec: a symbol-to-value mapping where `set_var`
inserts or updates the entry, represented as an association list with at
most one entry per key. -/
structure Environment where
  vars : List (String × Obj)
  catch_stack : List Obj
  thrown : Obj × Obj
deriving DecidableEq, Repr

/-- A fresh environment (`Environment::default()`). -/
def Environment.default : Environment := ⟨[], [], (.nil, .nil)⟩

/-- Lookup in the dynamic table (`env.vars.get(sym)`). -/
def envGet : List (String × Obj) → String → Option Obj
  | [], _ => none
  | (k, v) :: rest, name => if k = name then some v else envGet rest name

/-- Modelled from the spec: `Environment::set_var` (in `env.rs`, not under
verification) writes the symbol's entry in the dynamic table, creating it
if absent. -/
def envSet : List (String × Obj) → String → Obj → List (String × Obj)
  | [], name, v => [(name, v)]
  | (k, w) :: rest, name, v =>
      if k = name then (k, v) :: rest else (k, w) :: envSet rest name v

/-- Update an existing entry of the dynamic table
(`env.vars.get_mut(var)` followed by `set`).  The absent case is declared
`unreachable!` at both Rust call sites (`eval_let` restore,
`let_bind_*`); the model leaves the table unchanged there. -/
def envUpdate : List (String × Obj) → String → Obj → List (String × Obj)
  | [], _, _ => []
  | (k, w) :: rest, name, v =>
      if k = name then (k, v) :: rest else (k, w) :: envUpdate rest name v

/-- The state owned by `Interpreter`: the lexical variable stack `vars`
(each element is the (car, cdr) content of a binding cons cell, pushed at
the END, searched most-recent-first i.e. from the end) plus the shared
`Environment`. -/
structure InterpSt where
  vars : List (Obj × Obj)
  env : Environment
deriving DecidableEq, Repr

/-- Search the lexical stack most-recent-first for a binding whose car is
the symbol (the loop of `var_ref`); later entries of the list are more
recent, so the recursion prefers the tail. -/
def lookupVar : List (Obj × Obj) → String → Option Obj
  | [], _ => none
  | b :: rest, name =>
      match lookupVar rest name with
      | some v => some v
      | none => if b.1 = Obj.sym name then some b.2 else none

/-- Mutate the most recent matching binding in place (the `set_cdr` of
`var_set`); `none` when no lexical binding matches. -/
def setVarList : List (Obj × Obj) → String → Obj → Option (List (Obj × Obj))
  | [], _, _ => none
  | b :: rest, name, v =>
      match setVarList rest name v with
      | some rest' => some (b :: rest')
      | none => if b.1 = Obj.sym name then some ((b.1, v) :: rest) else none

/-- `sym.name.starts_with(':')`: whether a symbol name begins with the
keyword marker (spelled out on the character list so it evaluates by
kernel reduction). -/
def isKeyword (name : String) : Bool :=
  match name.data with
  | [] => false
  | c :: _ => c = ':'

/-- `Interpreter::var_ref`: keyword symbols (leading colon) self-evaluate;
otherwise the lexical stack is searched most-recent-first, then the
dynamic table; otherwise "Void variable". -/
def varRef (st : InterpSt) (name : String) : Except EvalError Obj :=
  if isKeyword name then .ok (.sym name)
  else
    match lookupVar st.vars name with
    | some v => .ok v
    | none =>
        match envGet st.env.vars name with
        | some v => .ok v
        | none => .error (.ofMsg (.voidVariable name))

/-- `Interpreter::var_set`: mutate the most recent lexical binding in
place when one exists, else write the dynamic table. -/
def varSet (st : InterpSt) (name : String) (v : Obj) : InterpSt :=
  match setVarList st.vars name v with
  | some vars' => { st with vars := vars' }
  | none => { st with env := { st.env with vars := envSet st.env.vars name v } }

/-! ## The pair cell (`core/cons.rs`)

The GC-managed `Cons` cell, with its mark bit, mutability flag and the
two value cells.  `&self` mutation through the interior `Cell`s becomes
explicit state passing: each mutator returns the new cell state together
with the `Result` the Rust function returns. -/

/-- `struct Cons` of `cons.rs`. -/
structure ConsCell where
  marked : Bool
  mutable : Bool
  car : Obj
  cdr : Obj
deriving DecidableEq, Repr

namespace ConsCell

/-- `Cons::new`: freshly allocated cells are mutable and unmarked. -/
def new (car cdr : Obj) : ConsCell := ⟨false, true, car, cdr⟩

/-- `Cons::mark_const`: the one-way freeze transition. -/
def mark_const (c : ConsCell) : ConsCell := { c with mutable := false }

/-- `Cons::set_car`: succeeds and stores when the cell is mutable, else
fails with the mutate-immutable error, leaving the cell unchanged. -/
def set_car (c : ConsCell) (newCar : Obj) : ConsCell × Except String Unit :=
  if c.mutable then ({ c with car := newCar }, .ok ())
  else (c, .error "Attempt to call set-car on immutable cons cell")

/-- `Cons::set_cdr`, same contract as `set_car`. -/
def set_cdr (c : ConsCell) (newCdr : Obj) : ConsCell × Except String Unit :=
  if c.mutable then ({ c with cdr := newCdr }, .ok ())
  else (c, .error "Attempt to call set-cdr on immutable cons cell")

/-- `impl PartialEq for Cons`: structural car/cdr equality, independent of
the mark and mutability bits. -/
def beq (a b : ConsCell) : Prop := a.car = b.car ∧ a.cdr = b.cdr

end ConsCell

/-! ## The fixed-length vector (`core/object/vector.rs`) -/

/-- `struct LispVec`: a constant-or-mutable array of value cells. -/
structure LispVec where
  is_const : Bool
  inner : List Obj
deriving DecidableEq, Repr

namespace LispVec

/-- `LispVec::new`: freshly allocated vectors are not constant. -/
def new (vec : List Obj) : LispVec := ⟨false, vec⟩

/-- `LispVec::make_const`: the one-way freeze transition. -/
def make_const (v : LispVec) : LispVec := { v with is_const := true }

/-- `LispVec::try_mut`: whether a mutable view of the cells can be
obtained; fails on a constant vector. -/
def try_mut (v : LispVec) : Except String Unit :=
  if v.is_const then .error "Attempt to mutate constant Vector" else .ok ()

/-- Mutation of cell `i` through the mutable view: `try_mut` followed by
`MutObjCell::set` on the `i`-th cell of the returned slice.  On a
constant vector the view is never obtained, so the contents are
unchanged and the `try_mut` error is returned. -/
def try_set (v : LispVec) (i : Nat) (x : Obj) : LispVec × Except String Unit :=
  if v.is_const then (v, .error "Attempt to mutate constant Vector")
  else ({ v with inner := v.inner.set i x }, .ok ())

/-- `ObjCell::get` through slice indexing: a non-failing read of cell
`i`. -/
def get (v : LispVec) (i : Fin v.inner.length) : Obj := v.inner.get i

end LispVec

/-! ## The evaluator (`interpreter.rs`)

Every function below is a direct transcription of the method of the same
name on `Interpreter`.  Functions that evaluate subforms receive the
next-smaller evaluator as an explicit argument `ev` (the fuel-indexed
`evalForm` ties the knot at the end), so each helper is structurally
recursive on the form it walks. -/

/-- The result channel of an evaluation step. -/
inductive Res where
  | ok (v : Obj)
  | err (e : EvalError)
deriving DecidableEq, Repr

/-- Outcome of a fuel-driven evaluation: `none` = out of fuel. -/
abbrev EvalOut := Option (InterpSt × Res)

/-- The type of the evaluator handed to each special form. -/
abbrev EvalFn := InterpSt → Obj → EvalOut

/-- One step of the element iterator over a list object: the next element
and the remaining tail, `none` at the end of a proper list, an error on
anything that is not a list. -/
def objNext : Obj → Except EvalError (Option (Obj × Obj))
  | .nil => .ok none
  | .cons a d => .ok (some (a, d))
  | x => .error (.ofMsg (.typeError "List" x))

/-- Eager element list of a list object (`as_list` plus the full
iteration, as used where the source takes `forms.len()` up front). -/
def listElems : Obj → Except EvalError (List Obj)
  | .nil => .ok []
  | .cons a d =>
      match listElems d with
      | .ok l => .ok (a :: l)
      | .error e => .error e
  | x => .error (.ofMsg (.typeError "List" x))

/-- Membership of the catch stack under object equality
(`catch_stack.iter().any(|x| x == tag)`). -/
def stackHas (stack : List Obj) (tag : Obj) : Bool :=
  stack.any (fun x => x = tag)

/-- `Interpreter::quote`: exactly one argument, returned unevaluated. -/
def quoteF (forms : Obj) : Res :=
  match listElems forms with
  | .error e => .err e
  | .ok [x] => .ok x
  | .ok l => .err (.ofMsg (.argError 1 l.length "quote"))

/-- The loop of `Interpreter::implicit_progn`, carrying the value of the
last form evaluated so far (initially nil). -/
def implicitPrognFrom (ev : EvalFn) : InterpSt → Obj → Obj → EvalOut
  | st, last, .nil => some (st, .ok last)
  | st, _last, .cons f rest =>
      match ev st f with
      | none => none
      | some (st', .err e) => some (st', .err e)
      | some (st', .ok v) => implicitPrognFrom ev st' v rest
  | st, _, x => some (st, .err (.ofMsg (.typeError "List" x)))

/-- `Interpreter::implicit_progn`. -/
def implicitProgn (ev : EvalFn) (st : InterpSt) (forms : Obj) : EvalOut :=
  implicitPrognFrom ev st .nil forms

/-- `Interpreter::eval_progn`. -/
def evalProgn (ev : EvalFn) (st : InterpSt) (forms : Obj) : EvalOut :=
  implicitProgn ev st forms

/-- The name `eval_progx` reports in its arity error. -/
def progName : Nat → String
  | 1 => "prog1"
  | 2 => "prog2"
  | _ => "progn"

/-- The loop of `Interpreter::eval_progx`: evaluate every form, remember
the `progNum`-th value; if fewer forms were supplied, arity error. -/
def evalProgxAux (ev : EvalFn) (progNum : Nat) :
    InterpSt → Nat → Option Obj → Obj → EvalOut
  | st, count, returned, .nil =>
      match returned with
      | some x => some (st, .ok x)
      | none => some (st, .err (.ofMsg (.argError progNum count (progName progNum))))
  | st, count, returned, .cons f rest =>
      match ev st f with
      | none => none
      | some (st', .err e) => some (st', .err e)
      | some (st', .ok v) =>
          let returned' := if progNum = count + 1 then some v else returned
          evalProgxAux ev progNum st' (count + 1) returned' rest
  | st, _, _, x => some (st, .err (.ofMsg (.typeError "List" x)))

/-- `Interpreter::eval_progx` (`prog1`/`prog2`). -/
def evalProgx (ev : EvalFn) (st : InterpSt) (progNum : Nat) (forms : Obj) : EvalOut :=
  evalProgxAux ev progNum st 0 none forms

/-- The loop of `Interpreter::eval_and`, carrying the last truthy value
(initially `t`). -/
def evalAndAux (ev : EvalFn) : InterpSt → Obj → Obj → EvalOut
  | st, last, .nil => some (st, .ok last)
  | st, _last, .cons f rest =>
      match ev st f with
      | none => none
      | some (st', .err e) => some (st', .err e)
      | some (st', .ok v) =>
          if v = .nil then some (st', .ok .nil) else evalAndAux ev st' v rest
  | st, _, x => some (st, .err (.ofMsg (.typeError "List" x)))

/-- `Interpreter::eval_and`. -/
def evalAnd (ev : EvalFn) (st : InterpSt) (forms : Obj) : EvalOut :=
  evalAndAux ev st .t forms

/-- `Interpreter::eval_or`. -/
def evalOr (ev : EvalFn) : InterpSt → Obj → EvalOut
  | st, .nil => some (st, .ok .nil)
  | st, .cons f rest =>
      match ev st f with
      | none => none
      | some (st', .err e) => some (st', .err e)
      | some (st', .ok v) =>
          if v ≠ .nil then some (st', .ok v) else evalOr ev st' rest
  | st, x => some (st, .err (.ofMsg (.typeError "List" x)))

/-- `Interpreter::eval_if`: extract condition and then-branch first (arity
errors before any evaluation), then branch; the else-forms are an
implicit progn. -/
def evalIf (ev : EvalFn) (st : InterpSt) (forms : Obj) : EvalOut :=
  match forms with
  | .nil => some (st, .err (.ofMsg (.argError 2 0 "if")))
  | .cons cond rest =>
      match rest with
      | .nil => some (st, .err (.ofMsg (.argError 2 1 "if")))
      | .cons thenB elseForms =>
          match ev st cond with
          | none => none
          | some (st', .err e) => some (st', .err e)
          | some (st', .ok c) =>
              if c ≠ .nil then ev st' thenB else implicitProgn ev st' elseForms
      | x => some (st, .err (.ofMsg (.typeError "List" x)))
  | x => some (st, .err (.ofMsg (.typeError "List" x)))

/-- `Interpreter::eval_cond`: first clause with a truthy test either
returns the test value (empty clause body) or its body as implicit
progn. -/
def evalCond (ev : EvalFn) : InterpSt → Obj → EvalOut
  | st, .nil => some (st, .ok .nil)
  | st, .cons clause rest =>
      match objNext clause with
      | .error e => some (st, .err e)
      | .ok none => evalCond ev st rest
      | .ok (some (test, body)) =>
          match ev st test with
          | none => none
          | some (st', .err e) => some (st', .err e)
          | some (st', .ok c) =>
              if c ≠ .nil then
                if body = .nil then some (st', .ok c)
                else implicitProgn ev st' body
              else evalCond ev st' rest
  | st, x => some (st, .err (.ofMsg (.typeError "List" x)))

/-- The iteration of `Interpreter::eval_while`: re-evaluate the condition
before each pass; one pass evaluates ALL the forms (condition included)
as an implicit progn, exactly as the source re-builds the full iterator
each time round.  Each pass consumes one unit of fuel. -/
def evalWhileLoop (ev : EvalFn) (cond forms : Obj) : Nat → InterpSt → EvalOut
  | 0, _ => none
  | fuel + 1, st =>
      match ev st cond with
      | none => none
      | some (st', .err e) => some (st', .err e)
      | some (st', .ok c) =>
          if c = .nil then some (st', .ok .nil)
          else
            match implicitProgn ev st' forms with
            | none => none
            | some (st2, .err e) => some (st2, .err e)
            | some (st2, .ok _) => evalWhileLoop ev cond forms fuel st2

/-- `Interpreter::eval_while`: the first form is the condition; the result
is always nil. -/
def evalWhile (ev : EvalFn) (fuel : Nat) (st : InterpSt) (forms : Obj) : EvalOut :=
  match forms with
  | .nil => some (st, .err (.ofMsg (.argError 1 0 "while")))
  | .cons cond _ => evalWhileLoop ev cond forms fuel st
  | x => some (st, .err (.ofMsg (.typeError "List" x)))

/-- The loop of `Interpreter::setq` over `(symbol, value-form)` pairs
(`Interpreter::pairs` inlined): the shape checks happen on the pair
before the value form is evaluated; a pair with no value form is an
arity error using the running count; a non-symbol in variable position is
a type error; after the loop a zero-pair `setq` is an arity error, else
the last assigned value is returned. -/
def setqAux (ev : EvalFn) : InterpSt → Nat → Obj → Obj → EvalOut
  | st, argCnt, last, .nil =>
      if argCnt < 2 then some (st, .err (.ofMsg (.argError 2 0 "setq")))
      else some (st, .ok last)
  | st, argCnt, _, .cons var (.cons valForm rest) =>
      match var with
      | .sym name =>
          match ev st valForm with
          | none => none
          | some (st', .err e) => some (st', .err e)
          | some (st', .ok v) =>
              setqAux ev (varSet st' name v) (argCnt + 2) v rest
      | _ => some (st, .err (.ofMsg (.typeError "Symbol" var)))
  | st, argCnt, _, .cons var .nil =>
      match var with
      | .sym _ => some (st, .err (.ofMsg (.argError argCnt (argCnt + 1) "setq")))
      | _ => some (st, .err (.ofMsg (.argError argCnt (argCnt + 1) "setq")))
  | st, _, _, .cons _ x => some (st, .err (.ofMsg (.typeError "List" x)))
  | st, _, _, x => some (st, .err (.ofMsg (.typeError "List" x)))

/-- `Interpreter::setq`. -/
def setqF (ev : EvalFn) (st : InterpSt) (forms : Obj) : EvalOut :=
  setqAux ev st 0 .nil forms

/-- `Interpreter::defvar` (also `defconst`): the symbol is required (arity
error when absent, type error when not a symbol), the optional value form
is evaluated (nil when omitted), and the result is assigned through
`var_set`; any further forms are ignored. -/
def defvarF (ev : EvalFn) (st : InterpSt) (forms : Obj) : EvalOut :=
  match forms with
  | .nil => some (st, .err (.ofMsg (.argError 1 0 "defvar")))
  | .cons x rest =>
      match x with
      | .sym name =>
          match rest with
          | .nil => some (varSet st name .nil, .ok .nil)
          | .cons valForm _ =>
              match ev st valForm with
              | none => none
              | some (st', .err e) => some (st', .err e)
              | some (st', .ok v) => some (varSet st' name v, .ok v)
          | bad => some (st, .err (.ofMsg (.typeError "List" bad)))
      | bad => some (st, .err (.ofMsg (.typeError "Symbol" bad)))
  | x => some (st, .err (.ofMsg (.typeError "List" x)))

/-- `Interpreter::throw`: exactly two UNEVALUATED forms; if the tag is
present anywhere in the active catch stack, record `(tag, value)` in the
`thrown` slot and fail with the message-less throw signal, else fail
with the ordinary "No catch" error. -/
def throwF (st : InterpSt) (obj : Obj) : InterpSt × Res :=
  match listElems obj with
  | .error e => (st, .err e)
  | .ok l =>
      match l with
      | [tag, value] =>
          if stackHas st.env.catch_stack tag then
            ({ st with env := { st.env with thrown := (tag, value) } },
              .err .throwSignal)
          else (st, .err (.ofMsg (.noCatch tag)))
      | _ => (st, .err (.ofMsg (.argError 2 l.length "throw")))

/-- `Interpreter::catch`: push the (unevaluated) tag form on the catch
stack, run the body as implicit progn, then in every case pop the tag.
A failure is recovered exactly when it is the message-less throw signal
and the current top of the catch stack equals the thrown tag; the
recovered value is the thrown value. -/
def catchF (ev : EvalFn) (st : InterpSt) (obj : Obj) : EvalOut :=
  match obj with
  | .nil => some (st, .err (.ofMsg (.argError 1 0 "catch")))
  | .cons tag body =>
      let st1 : InterpSt :=
        { st with env := { st.env with catch_stack := st.env.catch_stack ++ [tag] } }
      match implicitProgn ev st1 body with
      | none => none
      | some (st2, r) =>
          let res : InterpSt × Res :=
            match r with
            | .ok v => (st2, .ok v)
            | .err e =>
                let tagNow := st2.env.catch_stack.getLast?.getD .nil
                if e.error = none ∧ tagNow = st2.env.thrown.1 then
                  (st2, .ok st2.env.thrown.2)
                else (st2, .err e)
          some ({ res.1 with
                    env := { res.1.env with
                               catch_stack := res.1.env.catch_stack.dropLast } },
                res.2)
  | x => some (st, .err (.ofMsg (.typeError "List" x)))

/-- `Interpreter::let_bind_value`: evaluate the (at most one) initializer
form of a `(var value)` binding entry, nil when omitted; more than one
value form is an error; only then is the variable position checked to be
a symbol ("let variable must be a symbol" wraps the type error). -/
def letBindValue (ev : EvalFn) (st : InterpSt) (bcar bcdr : Obj) :
    Option (InterpSt × Except EvalError (String × Obj)) :=
  let named : InterpSt → Obj → Option (InterpSt × Except EvalError (String × Obj)) :=
    fun st' v =>
      match bcar with
      | .sym name => some (st', .ok (name, v))
      | bad => some (st', .error (.ofMsg (.typeError "Symbol" bad)))
  match bcdr with
  | .nil => named st .nil
  | .cons valForm rest =>
      match ev st valForm with
      | none => none
      | some (st', .err e) => some (st', .error e)
      | some (st', .ok v) =>
          if rest ≠ .nil then
            some (st', .error (.ofMsg (.msg "Let binding can only have 1 value")))
          else named st' v
  | x => some (st, .error (.ofMsg (.typeError "List" x)))

/-- Install one evaluated `let` binding, as both `let_bind_serial` and
`let_bind_parallel` do: a dynamically-bound symbol's previous value is
saved on `dynamic_bindings` and the dynamic table entry overwritten; any
other symbol is pushed as a new lexical binding cons. -/
def installBinding (st : InterpSt) (db : List (String × Obj))
    (var : String) (val : Obj) : InterpSt × List (String × Obj) :=
  match envGet st.env.vars var with
  | some prev =>
      ({ st with env := { st.env with vars := envUpdate st.env.vars var val } },
        db ++ [(var, prev)])
  | none => ({ st with vars := st.vars ++ [(.sym var, val)] }, db)

/-- `Interpreter::let_bind_serial`: each binding entry is evaluated and
installed immediately, so it is visible to the later initializers. -/
def letBindSerial (ev : EvalFn) :
    InterpSt → List (String × Obj) → Obj →
      Option (InterpSt × List (String × Obj) × Except EvalError Unit)
  | st, db, .nil => some (st, db, .ok ())
  | st, db, .cons binding rest =>
      let step : Option (InterpSt × Except EvalError (String × Obj)) :=
        match binding with
        | .cons bcar bcdr => letBindValue ev st bcar bcdr
        | .sym name => some (st, .ok (name, .nil))
        | x => some (st, .error (.ofMsg (.typeError "Cons" x)))
      match step with
      | none => none
      | some (st', .error e) => some (st', db, .error e)
      | some (st', .ok (var, val)) =>
          let (st2, db2) := installBinding st' db var val
          letBindSerial ev st2 db2 rest
  | st, db, x => some (st, db, .error (.ofMsg (.typeError "List" x)))

/-- The collection loop of `Interpreter::let_bind_parallel`: evaluate
every initializer into `let_bindings` WITHOUT installing anything. -/
def collectLetBindings (ev : EvalFn) :
    InterpSt → List (String × Obj) → Obj →
      Option (InterpSt × Except EvalError (List (String × Obj)))
  | st, acc, .nil => some (st, .ok acc)
  | st, acc, .cons binding rest =>
      match binding with
      | .cons bcar bcdr =>
          match letBindValue ev st bcar bcdr with
          | none => none
          | some (st', .error e) => some (st', .error e)
          | some (st', .ok (var, val)) =>
              collectLetBindings ev st' (acc ++ [(var, val)]) rest
      | .sym name => collectLetBindings ev st (acc ++ [(name, .nil)]) rest
      | x => some (st, .error (.ofMsg (.typeError "Cons" x)))
  | st, _, x => some (st, .error (.ofMsg (.typeError "List" x)))

/-- The installation loop shared by `let_bind_parallel`'s second phase. -/
def installBindings : InterpSt → List (String × Obj) → List (String × Obj) →
    InterpSt × List (String × Obj)
  | st, db, [] => (st, db)
  | st, db, (var, val) :: rest =>
      let (st', db') := installBinding st db var val
      installBindings st' db' rest

/-- `Interpreter::let_bind_parallel`: all initializers are evaluated
before any binding is installed. -/
def letBindParallel (ev : EvalFn) (st : InterpSt) (db : List (String × Obj))
    (form : Obj) :
    Option (InterpSt × List (String × Obj) × Except EvalError Unit) :=
  match collectLetBindings ev st [] form with
  | none => none
  | some (st', .error e) => some (st', db, .error e)
  | some (st', .ok pairs) =>
      let (st2, db2) := installBindings st' db pairs
      some (st2, db2, .ok ())

/-- Undo the dynamic rebindings on normal exit from a `let` (the restore
loop at the end of `eval_let`, in push order). -/
def restoreDynamic : InterpSt → List (String × Obj) → InterpSt
  | st, [] => st
  | st, (var, val) :: rest =>
      restoreDynamic
        { st with env := { st.env with vars := envUpdate st.env.vars var val } } rest

/-- `Interpreter::eval_let`: remember the stack depth, install the
bindings (serial or parallel), evaluate the body as implicit progn, and
ONLY on success truncate the lexical stack back and restore the saved
dynamic values.  A failure from the bindings or the body is returned
early with no cleanup (the `?` operator in the source). -/
def evalLet (ev : EvalFn) (st : InterpSt) (form : Obj) (parallel : Bool) : EvalOut :=
  let prevLen := st.vars.length
  match form with
  | .nil => some (st, .err (.ofMsg (.argError 1 0 "let")))
  | .cons bindingsForm body =>
      match (if parallel then letBindParallel ev st [] bindingsForm
             else letBindSerial ev st [] bindingsForm) with
      | none => none
      | some (st1, _, .error e) => some (st1, .err e)
      | some (st1, db, .ok ()) =>
          match implicitProgn ev st1 body with
          | none => none
          | some (st2, .err e) => some (st2, .err e)
          | some (st2, .ok v) =>
              let st3 := { st2 with vars := st2.vars.take prevLen }
              some (restoreDynamic st3 db, .ok v)
  | x => some (st, .err (.ofMsg (.typeError "List" x)))

/-- The condition check of a `condition-case` handler: the symbol `error`
matches; a list all of whose elements are `debug` or `error` matches;
any other element is the "non-error conditions … not yet supported"
error; any other shape is an invalid condition handler. -/
def checkConditions : Obj → Except EvalError Unit
  | .nil => .ok ()
  | .cons x rest =>
      if x ≠ .sym "debug" ∧ x ≠ .sym "error" then
        .error (.ofMsg (.msg ("non-error conditions " ++ x.display ++ " not yet supported")))
      else checkConditions rest
  | x => .error (.ofMsg (.typeError "List" x))

/-- The handler loop of `Interpreter::condition_case`, entered with the
ordinary error `e` the bodyform failed with.  On the first handler with
a valid, matching condition: push the binding cons
`(var . (error "rendered message"))` onto the lexical stack, evaluate the
handler body as implicit progn (a non-list body yields nil), pop the
binding, return the body's value.  A nil handler is skipped; any other
shape is an invalid-handler error; when the handlers run out the
original error re-propagates. -/
def conditionCaseAux (ev : EvalFn) (varForm : Obj) (e : EvalError) :
    InterpSt → Obj → EvalOut
  | st, .nil => some (st, .err e)
  | st, .cons handler rest =>
      match handler with
      | .cons condition hbody =>
          let check : Except EvalError Unit :=
            match condition with
            | .sym s =>
                if s = "error" then .ok ()
                else .error (.ofMsg (.msg ("Invalid condition handler: " ++ condition.display)))
            | .cons _ _ => checkConditions condition
            | _ => .error (.ofMsg (.msg ("Invalid condition handler: " ++ condition.display)))
          match check with
          | .error e' => some (st, .err e')
          | .ok () =>
              let binding : Obj × Obj :=
                (varForm, .cons (.sym "error") (.cons (.str e.render) .nil))
              let st1 := { st with vars := st.vars ++ [binding] }
              match hbody with
              | .nil =>
                  match implicitProgn ev st1 .nil with
                  | none => none
                  | some (st2, .err e2) => some (st2, .err e2)
                  | some (st2, .ok v) =>
                      some ({ st2 with vars := st2.vars.dropLast }, .ok v)
              | .cons _ _ =>
                  match implicitProgn ev st1 hbody with
                  | none => none
                  | some (st2, .err e2) => some (st2, .err e2)
                  | some (st2, .ok v) =>
                      some ({ st2 with vars := st2.vars.dropLast }, .ok v)
              | _ => some (st1, .ok .nil)
      | .nil => conditionCaseAux ev varForm e st rest
      | invalid =>
          some (st, .err (.ofMsg (.msg ("Invalid condition handler: " ++ invalid.display))))
  | st, x => some (st, .err (.ofMsg (.typeError "List" x)))

/-- `Interpreter::condition_case`: `var` and the bodyform are required
(arity errors); on success of the bodyform its value is returned; a
failure that is the message-less throw signal re-propagates untouched;
an ordinary error enters the handler scan. -/
def conditionCase (ev : EvalFn) (st : InterpSt) (form : Obj) : EvalOut :=
  match form with
  | .nil => some (st, .err (.ofMsg (.argError 2 0 "condition-case")))
  | .cons varForm rest =>
      match rest with
      | .nil => some (st, .err (.ofMsg (.argError 2 1 "condition-case")))
      | .cons bodyform handlers =>
          match ev st bodyform with
          | none => none
          | some (st', .ok x) => some (st', .ok x)
          | some (st', .err e) =>
              if e.error = none then some (st', .err e)
              else conditionCaseAux ev varForm e st' handlers
      | x => some (st, .err (.ofMsg (.typeError "List" x)))
  | x => some (st, .err (.ofMsg (.typeError "List" x)))

/-- The captured-environment list built by `eval_function` for a lambda:
the lexical stack's binding cells in stack order, terminated by the
literal `t` sentinel (`slice_into_list(env, Some(cons!(true)))`). -/
def closureEnvList (vars : List (Obj × Obj)) : Obj :=
  match vars with
  | [] => .cons .t .nil
  | b :: rest => .cons (.cons b.1 b.2) (closureEnvList rest)

/-- `Interpreter::eval_function`: exactly one argument; a `(lambda ...)`
cons is turned into `(closure ENV . CDR-OF-LAMBDA)` snapshotting the
current lexical stack, any other value is returned as is. -/
def evalFunction (st : InterpSt) (obj : Obj) : Res :=
  match listElems obj with
  | .error e => .err e
  | .ok [form] =>
      match form with
      | .cons (.sym "lambda") lcdr =>
          .ok (.cons (.sym "closure") (.cons (closureEnvList st.vars) lcdr))
      | x => .ok x
  | .ok l => .err (.ofMsg (.argError 1 l.length "function"))

/-! ### Closure argument binding (`parse_arg_list`, `bind_args`,
`parse_closure_env`, `bind_variables`)

These are pure functions on objects in the source (no interpreter state);
`bind_args` pushes onto the `vars` vector being built for the closure
body, modelled by returning the extended list. -/

/-- The loop of `parse_arg_list` over the argument spec: plain symbols go
to the current bucket (required, then optional after `&optional`); after
`&rest` exactly one symbol may follow; every element must be a symbol. -/
def parseArgListAux : Obj → List String → List String → Bool →
    Except EvalError (List String × List String × Option String)
  | .nil, required, optional, _ => .ok (required, optional, none)
  | .cons b rest, required, optional, inOpt =>
      match b with
      | .sym s =>
          if s = "&optional" then parseArgListAux rest required optional true
          else if s = "&rest" then
            match rest with
            | .nil => .ok (required, optional, none)
            | .cons r rest2 =>
                match r with
                | .sym rn =>
                    match rest2 with
                    | .nil => .ok (required, optional, some rn)
                    | .cons _ _ =>
                        .error (.ofMsg (.msg "Found multiple arguments after &rest"))
                    | x => .error (.ofMsg (.typeError "List" x))
                | x => .error (.ofMsg (.typeError "Symbol" x))
            | x => .error (.ofMsg (.typeError "List" x))
          else if inOpt then parseArgListAux rest required (optional ++ [s]) inOpt
          else parseArgListAux rest (required ++ [s]) optional inOpt
      | x => .error (.ofMsg (.typeError "Symbol" x))
  | x, _, _, _ => .error (.ofMsg (.typeError "List" x))

/-- `parse_arg_list`: split an argument spec into required names,
optional names and the optional `&rest` name. -/
def parseArgList (bindings : Obj) :
    Except EvalError (List String × List String × Option String) :=
  parseArgListAux bindings [] [] false

/-- Binding loop for the required names: each consumes one supplied
argument.  Only called when enough arguments are present (the arity check
in `bind_args` precedes it; the `unwrap` in the source is the same
assumption), so the empty-arguments case is unreachable and binds nil. -/
def bindRequired : List String → List Obj → List (Obj × Obj) × List Obj
  | [], args => ([], args)
  | n :: ns, v :: rest =>
      let (bs, rem) := bindRequired ns rest
      ((.sym n, v) :: bs, rem)
  | n :: ns, [] =>
      let (bs, rem) := bindRequired ns []
      ((.sym n, .nil) :: bs, rem)

/-- Binding loop for the optional names: each consumes one supplied
argument if present, else binds nil (`unwrap_or_default`). -/
def bindOptional : List String → List Obj → List (Obj × Obj) × List Obj
  | [], args => ([], args)
  | n :: ns, v :: rest =>
      let (bs, rem) := bindOptional ns rest
      ((.sym n, v) :: bs, rem)
  | n :: ns, [] =>
      let (bs, rem) := bindOptional ns []
      ((.sym n, .nil) :: bs, rem)

/-- `bind_args`: parse the spec; too few arguments for the required names
is an arity error; required then optional names consume arguments in
order; a `&rest` name binds the remaining arguments as a list; with no
`&rest`, leftover arguments are a too-many-arguments arity error. -/
def bindArgs (argList : Obj) (args : List Obj) (vars : List (Obj × Obj))
    (name : String) : Except EvalError (List (Obj × Obj)) :=
  match parseArgList argList with
  | .error e => .error e
  | .ok (required, optional, rest) =>
      if args.length < required.length then
        .error (.ofMsg (.argError required.length args.length name))
      else
        let (reqB, rem1) := bindRequired required args
        let (optB, rem2) := bindOptional optional rem1
        match rest with
        | some restName =>
            .ok (vars ++ reqB ++ optB ++ [(.sym restName, Obj.ofList rem2)])
        | none =>
            if rem2.isEmpty then .ok (vars ++ reqB ++ optB)
            else
              .error (.ofMsg (.argError (required.length + optional.length)
                                args.length name))

/-- `parse_closure_env`: the captured environment is a list of binding
cons cells terminated by the literal `t` sentinel (anything after the
sentinel is ignored); a missing sentinel or a non-cons member is an
error. -/
def parseClosureEnv : Obj → Except EvalError (List (Obj × Obj))
  | .nil => .error (.ofMsg (.msg "Closure env did not end with `t`"))
  | .cons p rest =>
      match p with
      | .cons a d =>
          match parseClosureEnv rest with
          | .ok env => .ok ((a, d) :: env)
          | .error e => .error e
      | .t => .ok []
      | x => .error (.ofMsg (.msg ("Invalid closure environment member: " ++ x.display)))
  | x => .error (.ofMsg (.typeError "List" x))

/-- `bind_variables`: the closure's captured environment seeds the
lexical stack for the call, then `bind_args` adds the argument
bindings. -/
def bindVariables (envForm argListForm : Obj) (args : List Obj) (name : String) :
    Except EvalError (List (Obj × Obj)) :=
  match parseClosureEnv envForm with
  | .error e => .error e
  | .ok vars => bindArgs argListForm args vars name

/-- `Interpreter::eval_call` resolves the operator through
`Symbol::follow_indirect`.  Modelled from the spec: the symbol table and
native-function registry are external collaborators (spec §1, §6) and a
fresh environment carries no function definitions, so resolution always
takes the `None` branch and the call fails as "Invalid function"; no
program in the theorems below reaches an ordinary function call. -/
def evalCall (st : InterpSt) (name : String) (_args : Obj) : InterpSt × Res :=
  (st, .err (.ofMsg (.invalidFunction (.sym name))))

/-- `Interpreter::eval_sexp`: special-form dispatch on the operator
symbol; a non-symbol operator is "Invalid Function". -/
def evalSexp (ev : EvalFn) (fuel : Nat) (st : InterpSt) (head forms : Obj) : EvalOut :=
  match head with
  | .sym s =>
      if s = "quote" then some (st, quoteF forms)
      else if s = "let" then evalLet ev st forms true
      else if s = "let*" then evalLet ev st forms false
      else if s = "if" then evalIf ev st forms
      else if s = "and" then evalAnd ev st forms
      else if s = "or" then evalOr ev st forms
      else if s = "cond" then evalCond ev st forms
      else if s = "while" then evalWhile ev fuel st forms
      else if s = "progn" then evalProgn ev st forms
      else if s = "prog1" then evalProgx ev st 1 forms
      else if s = "prog2" then evalProgx ev st 2 forms
      else if s = "setq" then setqF ev st forms
      else if s = "defvar" then defvarF ev st forms
      else if s = "defconst" then defvarF ev st forms
      else if s = "function" then some (st, evalFunction st forms)
      else if s = "interactive" then some (st, .ok .nil)
      else if s = "catch" then catchF ev st forms
      else if s = "throw" then some (throwF st forms)
      else if s = "condition-case" then conditionCase ev st forms
      else some (evalCall st s forms)
  | other => some (st, .err (.ofMsg (.invalidFunction other)))

/-- `Interpreter::eval_form`, driven by fuel: symbols are variable
references, conses dispatch as calls/special forms, everything else
self-evaluates. -/
def evalForm : Nat → InterpSt → Obj → EvalOut
  | 0, _, _ => none
  | fuel + 1, st, o =>
      match o with
      | .sym s =>
          some (st, match varRef st s with
                    | .ok v => .ok v
                    | .error e => .err e)
      | .cons a d => evalSexp (fun st' o' => evalForm fuel st' o') fuel st a d
      | x => some (st, .ok x)

/-- The top-level `eval` entry point: a fresh lexical stack over the given
environment (the initial collection safepoint has no observable effect in
the model). -/
def evalTop (fuel : Nat) (env : Environment) (form : Obj) : EvalOut :=
  evalForm fuel ⟨[], env⟩ form

/-- Just the result channel of an evaluation outcome. -/
def resultOf (out : EvalOut) : Option Res := out.map (·.2)

/-! ## General lemmas about the embedded operations -/

/-- A lexical binding for `name` exists exactly when the in-place update
of `var_set` finds one. -/
theorem setVarList_eq_none_iff (l : List (Obj × Obj)) (name : String) (v : Obj) :
    setVarList l name v = none ↔ lookupVar l name = none := by
  induction l with
  | nil => simp [setVarList, lookupVar]
  | cons b rest ih =>
      simp only [setVarList, lookupVar]
      cases h : setVarList rest name v with
      | some rest' =>
          have : lookupVar rest name ≠ none := by
            intro hn
            rw [← ih] at hn
            simp [hn] at h
          cases hl : lookupVar rest name with
          | none => exact absurd hl this
          | some w => simp
      | none =>
          have hl : lookupVar rest name = none := ih.mp h
          rw [hl]
          by_cases hc : b.1 = Obj.sym name <;> simp [hc]

/-- After `var_set` mutates a lexical binding, the most-recent-first
lookup sees the new value. -/
theorem lookupVar_setVarList (l : List (Obj × Obj)) (name : String) (v : Obj)
    (l' : List (Obj × Obj)) (h : setVarList l name v = some l') :
    lookupVar l' name = some v := by
  induction l generalizing l' with
  | nil => simp [setVarList] at h
  | cons b rest ih =>
      simp only [setVarList] at h
      cases hr : setVarList rest name v with
      | some rest' =>
          rw [hr] at h
          cases h
          have := ih rest' hr
          simp [lookupVar, this]
      | none =>
          rw [hr] at h
          by_cases hc : b.1 = Obj.sym name
          · simp only [hc, if_pos rfl] at h
            cases h
            have hrest : lookupVar rest name = none :=
              (setVarList_eq_none_iff rest name v).mp hr
            simp [lookupVar, hrest, hc]
          · simp [hc] at h

/-- Writing the dynamic table makes the entry readable. -/
theorem envGet_envSet_self (l : List (String × Obj)) (name : String) (v : Obj) :
    envGet (envSet l name v) name = some v := by
  induction l with
  | nil => simp [envSet, envGet]
  | cons p rest ih =>
      by_cases hc : p.1 = name
      · simp [envSet, envGet, hc]
      · cases p with
        | mk k w => simp only at hc; simp [envSet, envGet, hc, ih]

/-! ## C6 — the freeze invariant of cons cells and vectors -/

/-- C6: for every cons cell and every vector, once frozen
(`mark_const`/`make_const`), every mutation attempt (`set_car`,
`set_cdr`, `try_mut`, mutation through the view) fails with the
mutate-immutable error and leaves the stored contents unchanged (so all
reads are unaffected); repeating the freeze is an idempotent no-op; and
no operation ever clears the frozen flag. -/
theorem freeze_invariant :
    (∀ (c : ConsCell) (v : Obj), c.mutable = false →
        c.set_car v = (c, .error "Attempt to call set-car on immutable cons cell") ∧
        c.set_cdr v = (c, .error "Attempt to call set-cdr on immutable cons cell") ∧
        c.mark_const = c) ∧
    (∀ (c : ConsCell) (v : Obj),
        (c.set_car v).1.mutable = c.mutable ∧
        (c.set_cdr v).1.mutable = c.mutable) ∧
    (∀ c : ConsCell, c.mark_const.mutable = false) ∧
    (∀ (vec : LispVec) (i : Nat) (x : Obj), vec.is_const = true →
        vec.try_mut = .error "Attempt to mutate constant Vector" ∧
        vec.try_set i x = (vec, .error "Attempt to mutate constant Vector") ∧
        vec.make_const = vec) ∧
    (∀ (vec : LispVec) (i : Nat) (x : Obj),
        (vec.try_set i x).1.is_const = vec.is_const) ∧
    (∀ vec : LispVec, vec.make_const.is_const = true) := by
  refine ⟨?_, ?_, ?_, ?_, ?_, ?_⟩
  · intro c v h
    refine ⟨?_, ?_, ?_⟩ <;> cases c <;> simp_all [ConsCell.set_car, ConsCell.set_cdr,
      ConsCell.mark_const]
  · intro c v
    constructor <;> cases c with
    | mk marked m car cdr => cases m <;> simp [ConsCell.set_car, ConsCell.set_cdr]
  · intro c
    simp [ConsCell.mark_const]
  · intro vec i x h
    refine ⟨?_, ?_, ?_⟩ <;> cases vec <;> simp_all [LispVec.try_mut, LispVec.try_set,
      LispVec.make_const]
  · intro vec i x
    cases vec with
    | mk ic inner => cases ic <;> simp [LispVec.try_set]
  · intro vec
    simp [LispVec.make_const]

/-- Witness for C6 at a concrete frozen cell and vector. -/
theorem freeze_invariant_witness :
    ((ConsCell.new (.int 1) (.int 2)).mark_const.set_car (.int 3)
        = ((ConsCell.new (.int 1) (.int 2)).mark_const,
           .error "Attempt to call set-car on immutable cons cell")) ∧
    ((LispVec.new [.int 7]).make_const.try_set 0 (.int 9)
        = ((LispVec.new [.int 7]).make_const,
           .error "Attempt to mutate constant Vector")) :=
  ⟨(freeze_invariant.1 (ConsCell.new (.int 1) (.int 2)).mark_const (.int 3)
      (by decide)).1,
   ((freeze_invariant.2.2.2.1 (LispVec.new [.int 7]).make_const 0 (.int 9)
      (by decide)).2).1⟩

/-! ## C4 — catch/throw matching -/

/-- The state with a tag pushed on the catch stack (the push at the top
of `Interpreter::catch`). -/
def pushCatch (st : InterpSt) (tag : Obj) : InterpSt :=
  { st with env := { st.env with catch_stack := st.env.catch_stack ++ [tag] } }

/-- The state with the top catch tag popped (the pop at the bottom of
`Interpreter::catch`). -/
def popCatch (st : InterpSt) : InterpSt :=
  { st with env := { st.env with catch_stack := st.env.catch_stack.dropLast } }

/-- C4: `throw` fails with the ordinary "No catch" error when its tag is
nowhere on the active catch stack, and otherwise records `(tag, value)`
in the thrown slot and fails with the message-less signal; `catch`
evaluates its body with the tag pushed and pops it in all cases,
recovering the thrown value exactly when the failure is the message-less
signal whose recorded tag equals the current top of the catch stack (the
tag this catch pushed), and propagating every other failure unchanged;
concretely, `(catch 1 (throw 1 2))` evaluates to 2,
`(catch 1 (catch 2 (throw 1 3)))` evaluates to 3, and a bare
`(throw 1 2)` fails with "No catch". -/
theorem catch_throw_matching :
    (∀ (st : InterpSt) (tag value : Obj),
        stackHas st.env.catch_stack tag = false →
        throwF st (.cons tag (.cons value .nil)) = (st, .err (.ofMsg (.noCatch tag)))) ∧
    (∀ (st : InterpSt) (tag value : Obj),
        stackHas st.env.catch_stack tag = true →
        throwF st (.cons tag (.cons value .nil)) =
          ({ st with env := { st.env with thrown := (tag, value) } },
            .err .throwSignal)) ∧
    (∀ (ev : EvalFn) (st : InterpSt) (tag body : Obj) (st2 : InterpSt) (v : Obj),
        implicitProgn ev (pushCatch st tag) body = some (st2, .ok v) →
        catchF ev st (.cons tag body) = some (popCatch st2, .ok v)) ∧
    (∀ (ev : EvalFn) (st : InterpSt) (tag body : Obj) (st2 : InterpSt) (e : EvalError),
        implicitProgn ev (pushCatch st tag) body = some (st2, .err e) →
        e.error = none →
        st2.env.catch_stack.getLast?.getD .nil = st2.env.thrown.1 →
        catchF ev st (.cons tag body) = some (popCatch st2, .ok st2.env.thrown.2)) ∧
    (∀ (ev : EvalFn) (st : InterpSt) (tag body : Obj) (st2 : InterpSt) (e : EvalError),
        implicitProgn ev (pushCatch st tag) body = some (st2, .err e) →
        ¬(e.error = none ∧ st2.env.catch_stack.getLast?.getD .nil = st2.env.thrown.1) →
        catchF ev st (.cons tag body) = some (popCatch st2, .err e)) ∧
    resultOf (evalTop 32 .default
        (Obj.ofList [.sym "catch", .int 1,
          Obj.ofList [.sym "throw", .int 1, .int 2]])) = some (.ok (.int 2)) ∧
    resultOf (evalTop 32 .default
        (Obj.ofList [.sym "catch", .int 1,
          Obj.ofList [.sym "catch", .int 2,
            Obj.ofList [.sym "throw", .int 1, .int 3]]])) = some (.ok (.int 3)) ∧
    evalTop 32 .default (Obj.ofList [.sym "throw", .int 1, .int 2]) =
      some (⟨[], .default⟩, .err (.ofMsg (.noCatch (.int 1)))) := by
  refine ⟨?_, ?_, ?_, ?_, ?_, by rfl, by rfl, by rfl⟩
  · intro st tag value h
    simp [throwF, listElems, h]
  · intro st tag value h
    simp [throwF, listElems, h]
  · intro ev st tag body st2 v h
    simp [catchF, implicitProgn, pushCatch] at h ⊢
    rw [h]
    rfl
  · intro ev st tag body st2 e h he htag
    simp [catchF, implicitProgn, pushCatch] at h ⊢
    rw [h]
    simp [he, htag, popCatch]
  · intro ev st tag body st2 e h hne
    simp [catchF, implicitProgn, pushCatch] at h ⊢
    rw [h]
    simp only []
    rw [if_neg hne]
    rfl

/-- Witness for C4 at concrete states, tags and bodies. -/
theorem catch_throw_matching_witness :
    (throwF ⟨[], .default⟩ (.cons (.int 1) (.cons (.int 2) .nil)) =
        (⟨[], .default⟩, .err (.ofMsg (.noCatch (.int 1))))) ∧
    (throwF ⟨[], ⟨[], [.int 1], (.nil, .nil)⟩⟩ (.cons (.int 1) (.cons (.int 2) .nil)) =
        (⟨[], ⟨[], [.int 1], ((.int 1), (.int 2))⟩⟩, .err .throwSignal)) ∧
    (catchF (fun s o => evalForm 8 s o) ⟨[], .default⟩
        (.cons (.int 1) (.cons (.int 5) .nil)) =
      some (popCatch ⟨[], ⟨[], [.int 1], (.nil, .nil)⟩⟩, .ok (.int 5))) ∧
    (catchF (fun s o => evalForm 8 s o) ⟨[], .default⟩
        (.cons (.int 1) (.cons (Obj.ofList [.sym "throw", .int 1, .int 2]) .nil)) =
      some (popCatch ⟨[], ⟨[], [.int 1], (.int 1, .int 2)⟩⟩, .ok (.int 2))) ∧
    (catchF (fun s o => evalForm 8 s o) ⟨[], ⟨[], [.int 7], (.nil, .nil)⟩⟩
        (.cons (.int 1) (.cons (Obj.ofList [.sym "throw", .int 7, .int 2]) .nil)) =
      some (popCatch ⟨[], ⟨[], [.int 7, .int 1], (.int 7, .int 2)⟩⟩, .err .throwSignal)) := by
  refine ⟨?_, ?_, ?_, ?_, ?_⟩
  · exact catch_throw_matching.1 ⟨[], .default⟩ (.int 1) (.int 2) (by decide)
  · exact catch_throw_matching.2.1 ⟨[], ⟨[], [.int 1], (.nil, .nil)⟩⟩ (.int 1) (.int 2)
      (by decide)
  · exact catch_throw_matching.2.2.1 (fun s o => evalForm 8 s o) ⟨[], .default⟩
      (.int 1) (.cons (.int 5) .nil) ⟨[], ⟨[], [.int 1], (.nil, .nil)⟩⟩ (.int 5) (by decide)
  · exact catch_throw_matching.2.2.2.1 (fun s o => evalForm 8 s o) ⟨[], .default⟩
      (.int 1) (.cons (Obj.ofList [.sym "throw", .int 1, .int 2]) .nil)
      ⟨[], ⟨[], [.int 1], (.int 1, .int 2)⟩⟩ .throwSignal (by decide) (by decide) (by decide)
  · exact catch_throw_matching.2.2.2.2.1 (fun s o => evalForm 8 s o)
      ⟨[], ⟨[], [.int 7], (.nil, .nil)⟩⟩
      (.int 1) (.cons (Obj.ofList [.sym "throw", .int 7, .int 2]) .nil)
      ⟨[], ⟨[], [.int 7, .int 1], (.int 7, .int 2)⟩⟩ .throwSignal (by decide) (by decide)

/-! ## C1 — condition-case and throw signals -/

/-- C1 counterexample: with no enclosing catch, the tag of
`(throw 1 2)` is on no catch stack, so `throw` fails with the ORDINARY
"No catch for 1" error — not the message-less throw signal — and the
`(error 3)` handler of the surrounding `condition-case` intercepts it:
the form evaluates to 3 instead of propagating the failure as the claim
states.  (The source's own test
`check_interpreter("(condition-case nil (throw 1 2) (error 3))", 3, ...)`
pins this behaviour.) -/
theorem condition_case_intercepts_uncaught_throw :
    resultOf (evalTop 32 .default
        (Obj.ofList [.sym "condition-case", .nil,
          Obj.ofList [.sym "throw", .int 1, .int 2],
          Obj.ofList [.sym "error", .int 3]])) = some (.ok (.int 3)) := by rfl

/-- C1 (amended): `condition-case` re-propagates unchanged any failure
that is the message-less throw signal, so a throw travelling to an
enclosing catch passes through untouched —
`(catch 1 (condition-case nil (throw 1 2) (error 3)))` evaluates to 2 —
but a throw with NO enclosing catch never produces a throw signal in the
first place: it fails with the ordinary "No catch" error, which the
handlers do intercept, so `(condition-case nil (throw 1 2) (error 3))`
evaluates to 3. -/
theorem condition_case_throw_signal_propagation :
    (∀ (ev : EvalFn) (st : InterpSt) (varForm bodyform handlers : Obj)
        (st2 : InterpSt) (e : EvalError),
        ev st bodyform = some (st2, .err e) →
        e.error = none →
        conditionCase ev st (.cons varForm (.cons bodyform handlers)) =
          some (st2, .err e)) ∧
    resultOf (evalTop 32 .default
        (Obj.ofList [.sym "catch", .int 1,
          Obj.ofList [.sym "condition-case", .nil,
            Obj.ofList [.sym "throw", .int 1, .int 2],
            Obj.ofList [.sym "error", .int 3]]])) = some (.ok (.int 2)) ∧
    resultOf (evalTop 32 .default
        (Obj.ofList [.sym "condition-case", .nil,
          Obj.ofList [.sym "throw", .int 1, .int 2],
          Obj.ofList [.sym "error", .int 3]])) = some (.ok (.int 3)) := by
  refine ⟨?_, by rfl, by rfl⟩
  intro ev st varForm bodyform handlers st2 e h he
  simp [conditionCase, h, he]

/-- Witness for C1 at a concrete throw signal: inside a catch on tag 1,
`(throw 1 2)` fails with the message-less signal, and `condition-case`
passes it through unchanged. -/
theorem condition_case_throw_signal_propagation_witness :
    conditionCase (fun s o => evalForm 8 s o) ⟨[], ⟨[], [.int 1], (.nil, .nil)⟩⟩
        (.cons .nil (.cons (Obj.ofList [.sym "throw", .int 1, .int 2])
          (.cons (Obj.ofList [.sym "error", .int 3]) .nil))) =
      some (⟨[], ⟨[], [.int 1], (.int 1, .int 2)⟩⟩, .err .throwSignal) :=
  condition_case_throw_signal_propagation.1 (fun s o => evalForm 8 s o)
    ⟨[], ⟨[], [.int 1], (.nil, .nil)⟩⟩ .nil
    (Obj.ofList [.sym "throw", .int 1, .int 2])
    (.cons (Obj.ofList [.sym "error", .int 3]) .nil)
    ⟨[], ⟨[], [.int 1], (.int 1, .int 2)⟩⟩ .throwSignal (by decide) (by decide)

/-! ## C2 — catch and throw do NOT evaluate their arguments -/

/-- C2: the claim says `catch` pushes the result of EVALUATING its tag
form and `throw` records the results of EVALUATING its two forms.  The
source does neither: `catch` pushes the raw tag form and `throw` reads
both forms off the argument list unevaluated.  Hence
`(let ((x 1)) (catch x (throw 1 2)))` — where the evaluated tags would
both be 1 and the form would yield 2 — instead fails with the ordinary
"No catch for 1" error (the stack holds the SYMBOL `x`, not its value),
and `(catch 1 (throw 1 (quote x)))` — whose evaluated thrown value would
be the symbol `x` — instead returns the unevaluated list `(quote x)`. -/
theorem catch_throw_args_unevaluated :
    resultOf (evalTop 32 .default
        (Obj.ofList [.sym "let", Obj.ofList [Obj.ofList [.sym "x", .int 1]],
          Obj.ofList [.sym "catch", .sym "x",
            Obj.ofList [.sym "throw", .int 1, .int 2]]])) =
      some (.err (.ofMsg (.noCatch (.int 1)))) ∧
    resultOf (evalTop 32 .default
        (Obj.ofList [.sym "catch", .int 1,
          Obj.ofList [.sym "throw", .int 1, Obj.ofList [.sym "quote", .sym "x"]]])) =
      some (.ok (Obj.ofList [.sym "quote", .sym "x"])) := by
  exact ⟨by rfl, by rfl⟩

/-! ## C3 — defvar assigns through `var_set`, not directly to the
dynamic table -/

/-- C3 counterexample: `(let ((x 1)) (defvar x 2))` ends with an EMPTY
dynamic table.  `defvar` hands its value to `var_set`, which finds the
lexical binding of `x` made by the `let` and mutates it in place, never
touching the dynamic table — refuting the claim that the value is
installed into the dynamic variable table regardless of any lexical
binding of the same symbol. -/
theorem defvar_skips_dynamic_table_under_lexical_binding :
    evalTop 32 .default
        (Obj.ofList [.sym "let", Obj.ofList [Obj.ofList [.sym "x", .int 1]],
          Obj.ofList [.sym "defvar", .sym "x", .int 2]]) =
      some (⟨[], .default⟩, .ok (.int 2)) := by rfl

/-- C3 (amended): `defvar`/`defconst` evaluate the optional value form
exactly once (nil when omitted) and install the result through the
shared assignment path `var_set`: an existing lexical binding of the
symbol is mutated in place, and only in its absence is the value written
directly into the Environment's dynamic table; a `defvar` with no symbol
argument fails with an arity error. -/
theorem defvar_evaluates_once_and_var_sets :
    (∀ (ev : EvalFn) (st : InterpSt) (name : String) (valForm rest : Obj)
        (st' : InterpSt) (v : Obj),
        ev st valForm = some (st', .ok v) →
        defvarF ev st (.cons (.sym name) (.cons valForm rest)) =
          some (varSet st' name v, .ok v)) ∧
    (∀ (ev : EvalFn) (st : InterpSt) (name : String),
        defvarF ev st (.cons (.sym name) .nil) = some (varSet st name .nil, .ok .nil)) ∧
    (∀ (st : InterpSt) (name : String) (v : Obj),
        lookupVar st.vars name = none →
        varSet st name v =
          { st with env := { st.env with vars := envSet st.env.vars name v } } ∧
        envGet (varSet st name v).env.vars name = some v) ∧
    (∀ (st : InterpSt) (name : String) (v w : Obj),
        lookupVar st.vars name = some w →
        (varSet st name v).env = st.env ∧
        lookupVar (varSet st name v).vars name = some v) ∧
    (∀ (ev : EvalFn) (st : InterpSt),
        defvarF ev st .nil = some (st, .err (.ofMsg (.argError 1 0 "defvar")))) := by
  refine ⟨?_, ?_, ?_, ?_, ?_⟩
  · intro ev st name valForm rest st' v h
    simp [defvarF, h]
  · intro ev st name
    simp [defvarF]
  · intro st name v h
    have hn : setVarList st.vars name v = none :=
      (setVarList_eq_none_iff st.vars name v).mpr h
    constructor
    · simp [varSet, hn]
    · simp [varSet, hn, envGet_envSet_self]
  · intro st name v w h
    have hn : setVarList st.vars name v ≠ none := by
      intro hc
      rw [setVarList_eq_none_iff] at hc
      simp [hc] at h
    cases hs : setVarList st.vars name v with
    | none => exact absurd hs hn
    | some l' =>
        constructor
        · simp [varSet, hs]
        · simp [varSet, hs, lookupVar_setVarList st.vars name v l' hs]
  · intro ev st
    simp [defvarF]

/-- Witness for C3 (amended) at concrete states. -/
theorem defvar_evaluates_once_and_var_sets_witness :
    (defvarF (fun s o => evalForm 8 s o) ⟨[], .default⟩
        (.cons (.sym "a") (.cons (.int 2) .nil)) =
      some (varSet ⟨[], .default⟩ "a" (.int 2), .ok (.int 2))) ∧
    (varSet (⟨[], .default⟩ : InterpSt) "a" (.int 2) =
      ⟨[], ⟨[("a", .int 2)], [], (.nil, .nil)⟩⟩ ∧
     envGet (varSet (⟨[], .default⟩ : InterpSt) "a" (.int 2)).env.vars "a" =
       some (.int 2)) ∧
    ((varSet (⟨[(.sym "a", .int 1)], .default⟩ : InterpSt) "a" (.int 2)).env =
        Environment.default ∧
      lookupVar (varSet (⟨[(.sym "a", .int 1)], .default⟩ : InterpSt) "a" (.int 2)).vars
          "a" = some (.int 2)) := by
  refine ⟨?_, ?_, ?_⟩
  · exact defvar_evaluates_once_and_var_sets.1 (fun s o => evalForm 8 s o)
      ⟨[], .default⟩ "a" (.int 2) .nil ⟨[], .default⟩ (.int 2) (by decide)
  · have := defvar_evaluates_once_and_var_sets.2.2.1 (⟨[], .default⟩ : InterpSt)
      "a" (.int 2) (by decide)
    exact ⟨by rw [this.1]; rfl, this.2⟩
  · exact defvar_evaluates_once_and_var_sets.2.2.2.1
      (⟨[(.sym "a", .int 1)], .default⟩ : InterpSt) "a" (.int 2) (.int 1) (by decide)

/-! ## C5 — condition-case handler binding -/

/-- C5 counterexample: in `(condition-case x (if) (error x))` the handler
body returns the value bound to `x`.  The source builds the binding with
`list!(var, sym::ERROR, format!("{e}"))`, so the bound value is the
TWO-ELEMENT LIST `(error "message")` — a cons whose cdr is the
one-element list holding the message string — not the dotted pair
`(error . "message")` the claim describes, whatever the message text
is. -/
theorem condition_case_binds_list_not_pair :
    resultOf (evalTop 32 .default
        (Obj.ofList [.sym "condition-case", .sym "x",
          Obj.ofList [.sym "if"],
          Obj.ofList [.sym "error", .sym "x"]])) =
      some (.ok (.cons (.sym "error")
        (.cons (.str ((EvalError.ofMsg (.argError 2 0 "if")).render)) .nil))) ∧
    (Obj.cons (.sym "error")
        (.cons (.str ((EvalError.ofMsg (.argError 2 0 "if")).render)) .nil)) ≠
      Obj.cons (.sym "error")
        (.str ((EvalError.ofMsg (.argError 2 0 "if")).render)) := by
  exact ⟨by rfl, by decide⟩

/-- C5 (amended): when the bodyform of a `condition-case` fails with an
ordinary error, the first structurally valid matching handler runs with
a new lexical frame pushed that binds the (unevaluated) `var` form —
unconditionally, though a nil `var` can never be referenced — to the
two-element list `(error message-string)`; the handler body is evaluated
as an implicit progn, the frame is popped, and its value returned; when
the handlers are exhausted without a match the original error
re-propagates. -/
theorem condition_case_handler_binding :
    (∀ (ev : EvalFn) (varForm : Obj) (e : EvalError) (st : InterpSt)
        (h0 hrest rest : Obj) (st2 : InterpSt) (v : Obj),
        implicitProgn ev
            { st with vars := st.vars ++
                [(varForm, .cons (.sym "error") (.cons (.str e.render) .nil))] }
            (.cons h0 hrest) = some (st2, .ok v) →
        conditionCaseAux ev varForm e st
            (.cons (.cons (.sym "error") (.cons h0 hrest)) rest) =
          some ({ st2 with vars := st2.vars.dropLast }, .ok v)) ∧
    (∀ (ev : EvalFn) (varForm : Obj) (e : EvalError) (st : InterpSt),
        conditionCaseAux ev varForm e st .nil = some (st, .err e)) ∧
    (∀ (ev : EvalFn) (st : InterpSt) (varForm bodyform handlers : Obj)
        (st' : InterpSt) (e : EvalError),
        ev st bodyform = some (st', .err e) →
        e.error ≠ none →
        conditionCase ev st (.cons varForm (.cons bodyform handlers)) =
          conditionCaseAux ev varForm e st' handlers) ∧
    resultOf (evalTop 32 .default
        (Obj.ofList [.sym "condition-case", .nil,
          Obj.ofList [.sym "if"], Obj.ofList [.sym "error", .int 7]])) =
      some (.ok (.int 7)) ∧
    resultOf (evalTop 32 .default
        (Obj.ofList [.sym "condition-case", .sym "x",
          Obj.ofList [.sym "if"],
          Obj.ofList [.sym "error", .sym "x"]])) =
      some (.ok (.cons (.sym "error")
        (.cons (.str ((EvalError.ofMsg (.argError 2 0 "if")).render)) .nil))) := by
  refine ⟨?_, ?_, ?_, by rfl, by rfl⟩
  · intro ev varForm e st h0 hrest rest st2 v h
    simp [conditionCaseAux, h]
  · intro ev varForm e st
    simp [conditionCaseAux]
  · intro ev st varForm bodyform handlers st' e h he
    simp [conditionCase, h, he]

/-- Witness for C5 (amended) at a concrete error and handler. -/
theorem condition_case_handler_binding_witness :
    conditionCaseAux (fun s o => evalForm 8 s o) (.sym "x")
        (EvalError.ofMsg (.argError 2 0 "if")) ⟨[], .default⟩
        (.cons (.cons (.sym "error") (.cons (.sym "x") .nil)) .nil) =
      some (⟨[], .default⟩,
        .ok (.cons (.sym "error")
          (.cons (.str ((EvalError.ofMsg (.argError 2 0 "if")).render)) .nil))) ∧
    conditionCase (fun s o => evalForm 8 s o) ⟨[], .default⟩
        (.cons .nil (.cons (Obj.ofList [.sym "if"]) .nil)) =
      conditionCaseAux (fun s o => evalForm 8 s o) .nil
        (EvalError.ofMsg (.argError 2 0 "if")) ⟨[], .default⟩ .nil := by
  constructor
  · exact condition_case_handler_binding.1 (fun s o => evalForm 8 s o) (.sym "x")
      (EvalError.ofMsg (.argError 2 0 "if")) ⟨[], .default⟩ (.sym "x") .nil .nil
      ⟨[(.sym "x", .cons (.sym "error")
          (.cons (.str ((EvalError.ofMsg (.argError 2 0 "if")).render)) .nil))], .default⟩
      (.cons (.sym "error")
        (.cons (.str ((EvalError.ofMsg (.argError 2 0 "if")).render)) .nil))
      (by rfl)
  · exact condition_case_handler_binding.2.2.1 (fun s o => evalForm 8 s o)
      ⟨[], .default⟩ .nil (Obj.ofList [.sym "if"]) .nil ⟨[], .default⟩
      (EvalError.ofMsg (.argError 2 0 "if")) (by rfl) (by decide)

/-! ## C7 — parallel `let` vs serial `let*` -/

/-- An evaluator that never changes the lexical stack.  (Used to isolate
what the binder itself does to the stack: any stack change during the
binding phase must then come from the binder, not from the evaluated
initializer forms.) -/
def VarsPreserving (ev : EvalFn) : Prop :=
  ∀ s o s' r, ev s o = some (s', r) → s'.vars = s.vars

/-- `let_bind_value` touches the lexical stack only through the evaluator
it is given. -/
theorem letBindValue_vars (ev : EvalFn) (hp : VarsPreserving ev)
    (st : InterpSt) (bcar bcdr : Obj) (st' : InterpSt)
    (r : Except EvalError (String × Obj))
    (h : letBindValue ev st bcar bcdr = some (st', r)) : st'.vars = st.vars := by
  cases bcdr with
  | nil =>
      cases bcar <;> simp [letBindValue] at h <;> simp [h.1.symm]
  | cons valForm rest =>
      simp only [letBindValue] at h
      cases hev : ev st valForm with
      | none => rw [hev] at h; cases h
      | some out =>
          obtain ⟨stE, res⟩ := out
          rw [hev] at h
          have hvars := hp st valForm stE res hev
          cases res with
          | err e => simp at h; rw [← h.1]; exact hvars
          | ok v =>
              by_cases hr : rest = Obj.nil
              · subst hr
                simp at h
                cases bcar <;> simp at h <;> rw [← h.1] <;> exact hvars
              · simp [hr] at h
                rw [← h.1]
                exact hvars
  | t => simp [letBindValue] at h; simp [h.1.symm]
  | int n => simp [letBindValue] at h; simp [h.1.symm]
  | str s => simp [letBindValue] at h; simp [h.1.symm]
  | sym s => simp [letBindValue] at h; simp [h.1.symm]

/-- The collection phase of `let_bind_parallel` installs NO binding: with
a stack-preserving evaluator the lexical stack after collecting all the
initializer values is exactly the stack before, so no initializer can
see a sibling binding. -/
theorem collectLetBindings_vars (ev : EvalFn) (hp : VarsPreserving ev) :
    ∀ (form : Obj) (st : InterpSt) (acc : List (String × Obj)) (st' : InterpSt)
      (r : Except EvalError (List (String × Obj))),
      collectLetBindings ev st acc form = some (st', r) → st'.vars = st.vars := by
  intro form
  induction form with
  | cons binding rest ihcar ihcdr =>
      intro st acc st' r h
      cases binding with
      | cons bcar bcdr =>
          simp only [collectLetBindings] at h
          cases hv : letBindValue ev st bcar bcdr with
          | none => rw [hv] at h; cases h
          | some out =>
              obtain ⟨stV, res⟩ := out
              rw [hv] at h
              have h1 := letBindValue_vars ev hp st bcar bcdr stV res hv
              cases res with
              | error e => simp at h; rw [← h.1]; exact h1
              | ok p =>
                  have h2 := ihcdr stV (acc ++ [p]) st' r (by simpa using h)
                  rw [h2, h1]
      | sym name =>
          simp only [collectLetBindings] at h
          exact ihcdr st (acc ++ [(name, .nil)]) st' r h
      | nil => simp [collectLetBindings] at h; simp [h.1.symm]
      | t => simp [collectLetBindings] at h; simp [h.1.symm]
      | int n => simp [collectLetBindings] at h; simp [h.1.symm]
      | str s => simp [collectLetBindings] at h; simp [h.1.symm]
  | nil => intro st acc st' r h; simp [collectLetBindings] at h; simp [h.1.symm]
  | t => intro st acc st' r h; simp [collectLetBindings] at h; simp [h.1.symm]
  | int n => intro st acc st' r h; simp [collectLetBindings] at h; simp [h.1.symm]
  | str s => intro st acc st' r h; simp [collectLetBindings] at h; simp [h.1.symm]
  | sym s => intro st acc st' r h; simp [collectLetBindings] at h; simp [h.1.symm]

/-- C7: the parallel `let` binder evaluates every initializer before
installing any binding (its collection phase leaves the lexical stack
untouched whenever the evaluated forms do), so a later initializer never
sees a sibling binding — concretely `(let ((x 1) (y x)) y)` fails with
"Void variable: x" when no outer `x` exists and sees the outer value
(`(let ((x 5)) (let ((x 1) (y x)) y))` evaluates to 5) when one does —
while the serial `let*` binder installs each binding immediately after
evaluating its initializer, before touching the remaining entries, so
`(let* ((x 1) (y x)) y)` evaluates to 1. -/
theorem let_parallel_vs_serial :
    (∀ ev : EvalFn, VarsPreserving ev →
      ∀ (form : Obj) (st : InterpSt) (acc : List (String × Obj)) (st' : InterpSt)
        (r : Except EvalError (List (String × Obj))),
        collectLetBindings ev st acc form = some (st', r) → st'.vars = st.vars) ∧
    (∀ (ev : EvalFn) (st : InterpSt) (db : List (String × Obj)) (name : String)
        (valF rest : Obj) (stV : InterpSt) (v : Obj),
        ev st valF = some (stV, .ok v) →
        letBindSerial ev st db (.cons (.cons (.sym name) (.cons valF .nil)) rest) =
          letBindSerial ev (installBinding stV db name v).1
            (installBinding stV db name v).2 rest) ∧
    resultOf (evalTop 32 .default
        (Obj.ofList [.sym "let*",
          Obj.ofList [Obj.ofList [.sym "x", .int 1], Obj.ofList [.sym "y", .sym "x"]],
          .sym "y"])) = some (.ok (.int 1)) ∧
    resultOf (evalTop 32 .default
        (Obj.ofList [.sym "let",
          Obj.ofList [Obj.ofList [.sym "x", .int 1], Obj.ofList [.sym "y", .sym "x"]],
          .sym "y"])) = some (.err (.ofMsg (.voidVariable "x"))) ∧
    resultOf (evalTop 32 .default
        (Obj.ofList [.sym "let", Obj.ofList [Obj.ofList [.sym "x", .int 5]],
          Obj.ofList [.sym "let",
            Obj.ofList [Obj.ofList [.sym "x", .int 1], Obj.ofList [.sym "y", .sym "x"]],
            .sym "y"]])) = some (.ok (.int 5)) := by
  refine ⟨?_, ?_, by rfl, by rfl, by rfl⟩
  · intro ev hp
    exact collectLetBindings_vars ev hp
  · intro ev st db name valF rest stV v h
    simp [letBindSerial, letBindValue, h]

/-- Witness for C7 at a concrete binder run: a stack-preserving evaluator
and the binding list `((x 1))`, and one serial step installing `x`. -/
theorem let_parallel_vs_serial_witness :
    ((⟨[], .default⟩ : InterpSt).vars = (⟨[], .default⟩ : InterpSt).vars) ∧
    letBindSerial (fun s o => evalForm 8 s o) ⟨[], .default⟩ []
        (.cons (.cons (.sym "x") (.cons (.int 1) .nil)) .nil) =
      letBindSerial (fun s o => evalForm 8 s o)
        (installBinding ⟨[], .default⟩ [] "x" (.int 1)).1
        (installBinding ⟨[], .default⟩ [] "x" (.int 1)).2 .nil := by
  constructor
  · exact let_parallel_vs_serial.1 (fun s _ => some (s, .ok .nil))
      (by intro s o s' r h; cases h; rfl)
      (Obj.ofList [Obj.ofList [.sym "x", .int 1]]) ⟨[], .default⟩ []
      ⟨[], .default⟩ (.ok [("x", .nil)]) (by rfl)
  · exact let_parallel_vs_serial.2.1 (fun s o => evalForm 8 s o) ⟨[], .default⟩ []
      "x" (.int 1) .nil ⟨[], .default⟩ (.int 1) (by rfl)

/-! ## C8 — setq pair processing and lexical-first assignment -/

/-- C8: `setq` walks its forms as `(symbol, value-form)` pairs left to
right, evaluating each value form and assigning through `var_set` before
moving on (so `(setq a 1 b)` fails on the dangling `b` with an arity
error AFTER `a` has already been assigned 1 in the dynamic table); a
non-symbol in variable position is a type error; and each assignment
mutates the most recent lexical binding in place when one exists — the
dynamic table is untouched and the lexical lookup then yields the new
value — falling back to writing the dynamic table only when no lexical
binding exists. -/
theorem setq_pairs_and_lexical_first :
    (∀ (ev : EvalFn) (st : InterpSt) (cnt : Nat) (last : Obj) (name : String)
        (valForm rest : Obj) (st' : InterpSt) (v : Obj),
        ev st valForm = some (st', .ok v) →
        setqAux ev st cnt last (.cons (.sym name) (.cons valForm rest)) =
          setqAux ev (varSet st' name v) (cnt + 2) v rest) ∧
    (∀ (ev : EvalFn) (st : InterpSt) (cnt : Nat) (last : Obj) (name : String),
        setqAux ev st cnt last (.cons (.sym name) .nil) =
          some (st, .err (.ofMsg (.argError cnt (cnt + 1) "setq")))) ∧
    (∀ (ev : EvalFn) (st : InterpSt) (cnt : Nat) (last var valForm rest : Obj),
        (∀ nm, var ≠ .sym nm) →
        setqAux ev st cnt last (.cons var (.cons valForm rest)) =
          some (st, .err (.ofMsg (.typeError "Symbol" var)))) ∧
    (∀ (st : InterpSt) (name : String) (v w : Obj),
        lookupVar st.vars name = some w →
        (varSet st name v).env = st.env ∧
        lookupVar (varSet st name v).vars name = some v) ∧
    (∀ (st : InterpSt) (name : String) (v : Obj),
        lookupVar st.vars name = none →
        varSet st name v =
          { st with env := { st.env with vars := envSet st.env.vars name v } }) ∧
    evalTop 32 .default (Obj.ofList [.sym "setq", .sym "a", .int 1, .sym "b"]) =
      some (⟨[], ⟨[("a", .int 1)], [], (.nil, .nil)⟩⟩,
        .err (.ofMsg (.argError 2 3 "setq"))) ∧
    resultOf (evalTop 32 .default (Obj.ofList [.sym "setq", .int 1, .int 2])) =
      some (.err (.ofMsg (.typeError "Symbol" (.int 1)))) ∧
    resultOf (evalTop 32 .default
        (Obj.ofList [.sym "let", Obj.ofList [Obj.ofList [.sym "x", .int 1]],
          Obj.ofList [.sym "setq", .sym "x", .int 2], .sym "x"])) =
      some (.ok (.int 2)) := by
  refine ⟨?_, ?_, ?_, ?_, ?_, by rfl, by rfl, by rfl⟩
  · intro ev st cnt last name valForm rest st' v h
    simp [setqAux, h]
  · intro ev st cnt last name
    simp [setqAux]
  · intro ev st cnt last var valForm rest h
    cases var with
    | sym nm => exact absurd rfl (h nm)
    | nil => simp [setqAux]
    | t => simp [setqAux]
    | int n => simp [setqAux]
    | str s => simp [setqAux]
    | cons a d => simp [setqAux]
  · intro st name v w h
    have hn : setVarList st.vars name v ≠ none := by
      intro hc
      rw [setVarList_eq_none_iff] at hc
      simp [hc] at h
    cases hs : setVarList st.vars name v with
    | none => exact absurd hs hn
    | some l' =>
        exact ⟨by simp [varSet, hs],
          by simp [varSet, hs, lookupVar_setVarList st.vars name v l' hs]⟩
  · intro st name v h
    have hn : setVarList st.vars name v = none :=
      (setVarList_eq_none_iff st.vars name v).mpr h
    simp [varSet, hn]

/-- Witness for C8 at concrete states and forms. -/
theorem setq_pairs_and_lexical_first_witness :
    (setqAux (fun s o => evalForm 8 s o) ⟨[], .default⟩ 0 .nil
        (.cons (.sym "a") (.cons (.int 1) (.cons (.sym "b") .nil))) =
      setqAux (fun s o => evalForm 8 s o)
        (varSet ⟨[], .default⟩ "a" (.int 1)) 2 (.int 1) (.cons (.sym "b") .nil)) ∧
    (setqAux (fun s o => evalForm 8 s o) ⟨[], .default⟩ 0 .nil
        (.cons (.int 1) (.cons (.int 2) .nil)) =
      some (⟨[], .default⟩, .err (.ofMsg (.typeError "Symbol" (.int 1))))) ∧
    ((varSet (⟨[(.sym "x", .int 1)], .default⟩ : InterpSt) "x" (.int 2)).env =
        Environment.default ∧
      lookupVar (varSet (⟨[(.sym "x", .int 1)], .default⟩ : InterpSt) "x" (.int 2)).vars
          "x" = some (.int 2)) ∧
    (varSet (⟨[], .default⟩ : InterpSt) "x" (.int 2) =
      ⟨[], ⟨[("x", .int 2)], [], (.nil, .nil)⟩⟩) := by
  refine ⟨?_, ?_, ?_, ?_⟩
  · exact setq_pairs_and_lexical_first.1 (fun s o => evalForm 8 s o) ⟨[], .default⟩
      0 .nil "a" (.int 1) (.cons (.sym "b") .nil) ⟨[], .default⟩ (.int 1) (by rfl)
  · exact setq_pairs_and_lexical_first.2.2.1 (fun s o => evalForm 8 s o)
      ⟨[], .default⟩ 0 .nil (.int 1) (.int 2) .nil (by intro nm; simp)
  · exact setq_pairs_and_lexical_first.2.2.2.1
      (⟨[(.sym "x", .int 1)], .default⟩ : InterpSt) "x" (.int 2) (.int 1) (by decide)
  · have := setq_pairs_and_lexical_first.2.2.2.2.1 (⟨[], .default⟩ : InterpSt)
      "x" (.int 2) (by decide)
    rw [this]
    rfl

/-! ## C10 — a failing `let` body skips the scope cleanup -/

/-- C10: when the body of a `let`/`let*` fails (ordinary error or throw
signal), `eval_let` returns exactly the failing state: the lexical stack
is NOT truncated back to its previous length and the saved previous
values of dynamically rebound variables are NOT restored — that cleanup
runs only on the success path.  Concretely, `(let ((x 1)) (if))` fails
leaving the binding of `x` on the lexical stack, and with `foo`
dynamically bound to 1, `(let ((foo 3)) (if))` fails leaving `foo` at 3
in the dynamic table, whereas the successful `(let ((foo 3)))` restores
`foo` to 1 and the successful `(let ((x 1)))` truncates the lexical
stack. -/
theorem let_failure_skips_cleanup :
    (∀ (ev : EvalFn) (st : InterpSt) (bindingsForm body : Obj) (st1 : InterpSt)
        (db : List (String × Obj)) (st2 : InterpSt) (e : EvalError),
        letBindSerial ev st [] bindingsForm = some (st1, db, .ok ()) →
        implicitProgn ev st1 body = some (st2, .err e) →
        evalLet ev st (.cons bindingsForm body) false = some (st2, .err e)) ∧
    (∀ (ev : EvalFn) (st : InterpSt) (bindingsForm body : Obj) (st1 : InterpSt)
        (db : List (String × Obj)) (st2 : InterpSt) (e : EvalError),
        letBindParallel ev st [] bindingsForm = some (st1, db, .ok ()) →
        implicitProgn ev st1 body = some (st2, .err e) →
        evalLet ev st (.cons bindingsForm body) true = some (st2, .err e)) ∧
    evalTop 32 .default
        (Obj.ofList [.sym "let", Obj.ofList [Obj.ofList [.sym "x", .int 1]],
          Obj.ofList [.sym "if"]]) =
      some (⟨[(.sym "x", .int 1)], .default⟩, .err (.ofMsg (.argError 2 0 "if"))) ∧
    evalTop 32 ⟨[("foo", .int 1)], [], (.nil, .nil)⟩
        (Obj.ofList [.sym "let", Obj.ofList [Obj.ofList [.sym "foo", .int 3]],
          Obj.ofList [.sym "if"]]) =
      some (⟨[], ⟨[("foo", .int 3)], [], (.nil, .nil)⟩⟩,
        .err (.ofMsg (.argError 2 0 "if"))) ∧
    evalTop 32 ⟨[("foo", .int 1)], [], (.nil, .nil)⟩
        (Obj.ofList [.sym "let", Obj.ofList [Obj.ofList [.sym "foo", .int 3]]]) =
      some (⟨[], ⟨[("foo", .int 1)], [], (.nil, .nil)⟩⟩, .ok .nil) ∧
    evalTop 32 .default
        (Obj.ofList [.sym "let", Obj.ofList [Obj.ofList [.sym "x", .int 1]]]) =
      some (⟨[], .default⟩, .ok .nil) := by
  refine ⟨?_, ?_, by rfl, by rfl, by rfl, by rfl⟩
  · intro ev st bindingsForm body st1 db st2 e h1 h2
    simp [evalLet, h1, h2]
  · intro ev st bindingsForm body st1 db st2 e h1 h2
    simp [evalLet, h1, h2]

/-- Witness for C10 at a concrete failing body. -/
theorem let_failure_skips_cleanup_witness :
    (evalLet (fun s o => evalForm 8 s o) ⟨[], .default⟩
        (.cons (Obj.ofList [Obj.ofList [.sym "x", .int 1]])
          (.cons (Obj.ofList [.sym "if"]) .nil)) false =
      some (⟨[(.sym "x", .int 1)], .default⟩, .err (.ofMsg (.argError 2 0 "if")))) ∧
    (evalLet (fun s o => evalForm 8 s o) ⟨[], .default⟩
        (.cons (Obj.ofList [Obj.ofList [.sym "x", .int 1]])
          (.cons (Obj.ofList [.sym "if"]) .nil)) true =
      some (⟨[(.sym "x", .int 1)], .default⟩, .err (.ofMsg (.argError 2 0 "if")))) := by
  constructor
  · exact let_failure_skips_cleanup.1 (fun s o => evalForm 8 s o) ⟨[], .default⟩
      (Obj.ofList [Obj.ofList [.sym "x", .int 1]])
      (.cons (Obj.ofList [.sym "if"]) .nil)
      ⟨[(.sym "x", .int 1)], .default⟩ []
      ⟨[(.sym "x", .int 1)], .default⟩ (.ofMsg (.argError 2 0 "if"))
      (by rfl) (by rfl)
  · exact let_failure_skips_cleanup.2.1 (fun s o => evalForm 8 s o) ⟨[], .default⟩
      (Obj.ofList [Obj.ofList [.sym "x", .int 1]])
      (.cons (Obj.ofList [.sym "if"]) .nil)
      ⟨[(.sym "x", .int 1)], .default⟩ []
      ⟨[(.sym "x", .int 1)], .default⟩ (.ofMsg (.argError 2 0 "if"))
      (by rfl) (by rfl)

/-! ## C9 — closure argument binding -/

/-- The required-name binding loop consumes exactly the first
`ns.length` supplied arguments. -/
theorem bindRequired_snd : ∀ (ns : List String) (args : List Obj),
    (bindRequired ns args).2 = args.drop ns.length := by
  intro ns
  induction ns with
  | nil => intro args; simp [bindRequired]
  | cons n ns ih =>
      intro args
      cases args with
      | nil => simp [bindRequired, ih]
      | cons v rest => simp [bindRequired, ih]

/-- The optional-name binding loop consumes exactly the next
`ns.length` supplied arguments (when that many remain). -/
theorem bindOptional_snd : ∀ (ns : List String) (args : List Obj),
    (bindOptional ns args).2 = args.drop ns.length := by
  intro ns
  induction ns with
  | nil => intro args; simp [bindOptional]
  | cons n ns ih =>
      intro args
      cases args with
      | nil => simp [bindOptional, ih]
      | cons v rest => simp [bindOptional, ih]

/-- C9: `bind_args` (run on every closure call by
`call_closure → bind_variables`) enforces the argument protocol.
Generally: too few arguments for the required names is an arity error;
with no `&rest`, leftover arguments beyond required + optional are an
arity error; with `&rest`, any argument count at least the number of
required names succeeds and the `&rest` name is bound to the list of the
arguments left after the required and optional names; more than one
symbol after `&rest` is a parse error.  Concretely for the claim's
specs: `(x &optional y &rest z)` parses to (["x"], ["y"], some "z") and
accepts exactly the calls with at least one argument (binding `x` to the
first, `y` to the second or nil, `z` to the rest); `(x)` parses to
(["x"], [], none) and fails with 0 or ≥ 2 arguments while binding `x`
with exactly 1. -/
theorem closure_arg_binding :
    (parseArgList (Obj.ofList [.sym "x", .sym "&optional", .sym "y",
        .sym "&rest", .sym "z"]) = .ok (["x"], ["y"], some "z")) ∧
    (parseArgList (Obj.ofList [.sym "x"]) = .ok (["x"], [], none)) ∧
    (∀ (a : Obj) (rest : List Obj) (vars : List (Obj × Obj)) (name : String),
        bindArgs (Obj.ofList [.sym "x", .sym "&optional", .sym "y",
            .sym "&rest", .sym "z"]) (a :: rest) vars name =
          .ok (vars ++ [(.sym "x", a), (.sym "y", rest.headD .nil),
            (.sym "z", Obj.ofList rest.tail)])) ∧
    (∀ (vars : List (Obj × Obj)) (name : String),
        bindArgs (Obj.ofList [.sym "x", .sym "&optional", .sym "y",
            .sym "&rest", .sym "z"]) [] vars name =
          .error (.ofMsg (.argError 1 0 name))) ∧
    (∀ (a : Obj) (vars : List (Obj × Obj)) (name : String),
        bindArgs (Obj.ofList [.sym "x"]) [a] vars name =
          .ok (vars ++ [(.sym "x", a)])) ∧
    (∀ (vars : List (Obj × Obj)) (name : String),
        bindArgs (Obj.ofList [.sym "x"]) [] vars name =
          .error (.ofMsg (.argError 1 0 name))) ∧
    (∀ (a b : Obj) (rest : List Obj) (vars : List (Obj × Obj)) (name : String),
        bindArgs (Obj.ofList [.sym "x"]) (a :: b :: rest) vars name =
          .error (.ofMsg (.argError 1 (rest.length + 2) name))) ∧
    (∀ (argList : Obj) (args : List Obj) (vars : List (Obj × Obj)) (name : String)
        (req opt : List String) (r : Option String),
        parseArgList argList = .ok (req, opt, r) →
        args.length < req.length →
        bindArgs argList args vars name =
          .error (.ofMsg (.argError req.length args.length name))) ∧
    (∀ (argList : Obj) (args : List Obj) (vars : List (Obj × Obj)) (name : String)
        (req opt : List String),
        parseArgList argList = .ok (req, opt, none) →
        req.length + opt.length < args.length →
        bindArgs argList args vars name =
          .error (.ofMsg (.argError (req.length + opt.length) args.length name))) ∧
    (∀ (argList : Obj) (args : List Obj) (vars : List (Obj × Obj)) (name : String)
        (req opt : List String) (rn : String),
        parseArgList argList = .ok (req, opt, some rn) →
        req.length ≤ args.length →
        bindArgs argList args vars name =
          .ok (vars ++ (bindRequired req args).1 ++
            (bindOptional opt (args.drop req.length)).1 ++
            [(.sym rn, Obj.ofList (args.drop (req.length + opt.length)))])) ∧
    (∀ (r : String) (w tail : Obj) (req opt : List String) (b : Bool),
        parseArgListAux (.cons (.sym "&rest") (.cons (.sym r) (.cons w tail)))
            req opt b =
          .error (.ofMsg (.msg "Found multiple arguments after &rest"))) := by
  refine ⟨by rfl, by rfl, ?_, by intro vars name; rfl, ?_, by intro vars name; rfl,
    ?_, ?_, ?_, ?_, ?_⟩
  · intro a rest vars name
    cases rest with
    | nil =>
        simp [bindArgs, parseArgList, parseArgListAux, bindRequired, bindOptional,
          Obj.ofList]
    | cons b rest2 =>
        simp [bindArgs, parseArgList, parseArgListAux, bindRequired, bindOptional,
          Obj.ofList]
  · intro a vars name
    simp [bindArgs, parseArgList, parseArgListAux, bindRequired, bindOptional,
      Obj.ofList]
  · intro a b rest vars name
    simp [bindArgs, parseArgList, parseArgListAux, bindRequired, bindOptional,
      Obj.ofList]
  · intro argList args vars name req opt r hp hlt
    simp [bindArgs, hp, hlt]
  · intro argList args vars name req opt hp hgt
    have hreq : ¬ args.length < req.length := by omega
    have hrem : (bindOptional opt (bindRequired req args).2).2 =
        args.drop (req.length + opt.length) := by
      rw [bindRequired_snd, bindOptional_snd, List.drop_drop]
    have hne : (bindOptional opt (bindRequired req args).2).2 ≠ [] := by
      rw [hrem]
      intro hc
      have := congrArg List.length hc
      simp [List.length_drop] at this
      omega
    have hemp : (bindOptional opt (bindRequired req args).2).2.isEmpty = false := by
      cases hx : (bindOptional opt (bindRequired req args).2).2 with
      | nil => exact absurd hx hne
      | cons y ys => rfl
    simp [bindArgs, hp, hreq, hemp]
  · intro argList args vars name req opt rn hp hle
    have hreq : ¬ args.length < req.length := by omega
    have hrem2 : (bindOptional opt (List.drop req.length args)).2 =
        args.drop (req.length + opt.length) := by
      rw [bindOptional_snd, List.drop_drop]
    simp [bindArgs, hp, hreq, bindRequired_snd, hrem2]
  · intro r w tail req opt b
    simp [parseArgListAux]

/-- Witness for C9 at concrete argument lists. -/
theorem closure_arg_binding_witness :
    (bindArgs (Obj.ofList [.sym "x"]) [] [] "f" =
      .error (.ofMsg (.argError 1 0 "f"))) ∧
    (bindArgs (Obj.ofList [.sym "x"]) [.int 5, .int 6] [] "f" =
      .error (.ofMsg (.argError 1 2 "f"))) ∧
    (bindArgs (Obj.ofList [.sym "x", .sym "&optional", .sym "y", .sym "&rest",
        .sym "z"]) [.int 5] [] "f" =
      .ok ([] ++ (bindRequired ["x"] [.int 5]).1 ++
        (bindOptional ["y"] ([Obj.int 5].drop 1)).1 ++
        [(.sym "z", Obj.ofList ([Obj.int 5].drop (1 + 1)))])) := by
  refine ⟨?_, ?_, ?_⟩
  · exact closure_arg_binding.2.2.2.2.2.2.2.1 (Obj.ofList [.sym "x"]) [] [] "f"
      ["x"] [] none (by rfl) (by decide)
  · exact closure_arg_binding.2.2.2.2.2.2.2.2.1 (Obj.ofList [.sym "x"])
      [.int 5, .int 6] [] "f" ["x"] [] (by rfl) (by decide)
  · exact closure_arg_binding.2.2.2.2.2.2.2.2.2.1
      (Obj.ofList [.sym "x", .sym "&optional", .sym "y", .sym "&rest", .sym "z"])
      [.int 5] [] "f" ["x"] ["y"] "z" (by rfl) (by decide)
